import Mathlib

/-!
Shallow embedding of the local-minimum finder `findLocalMinima` from
`Plots/Satellites/NCL_sat_1.py`, together with the helper functions
`makeCoordArr` and `sliceTupleArray` that it calls.

Modelling conventions:
* NumPy float arrays are modelled as `List (List ℚ)`; exact rational
  arithmetic stands in for IEEE floating point.
* A float division with a zero denominator yields `inf`/`nan` in NumPy
  (no exception), and every `<=` comparison against such a value is
  `False`; a division result is therefore an `Option ℚ` (`fdiv`), with
  `none` for the zero-denominator case, and the screen `absLe` maps
  `none` to `false`.
* Python/NumPy indexing that can raise `IndexError` is modelled with
  `List.get?`; a raised-and-caught `IndexError` (the `try`/`except`
  blocks of stages 2 and 3) is the `none` branch of the corresponding
  `match`.  Indexing with a negative index `-len <= i < 0` does not
  raise: it wraps around to `len + i`; `pyGet` implements this.
* The `IndexError` that stage 1 can raise (its reads are not inside any
  `try`) is uncaught and aborts the whole call, so `findLocalMinima`
  returns `Option (List (Int × Int))`, with `none` for that abort.
* The stage-2 `except` branch prints `(x+1, y)` to the console before
  continuing; this side effect is modelled by `stage2print`/`consoleOf`
  and threaded through `findLocalMinimaRun`.
* Following the design document, the module-level values read by the
  source (`U.data`, the coordinate arrays, `bound = 0.02`, `step = 2`)
  are passed explicitly as the parameters `F`, `lat`, `lon`, `bound`,
  `step`; the body below follows the source line by line.
-/

/-- NumPy scalar division: a zero denominator yields `inf`/`nan`
(modelled as `none`); otherwise the exact quotient. -/
def fdiv (a b : ℚ) : Option ℚ := if b = 0 then none else some (a / b)

/-- Evaluation of `abs(v) <= bound` on a NumPy scalar: any comparison against
`inf`/`nan` (`none`) is `False`. -/
def absLe : Option ℚ → ℚ → Bool
  | some v, bound => decide (|v| ≤ bound)
  | none, _ => false

/-- Python/NumPy list indexing: a negative index `-len ≤ i < 0` wraps to
`len + i`; an index outside `[-len, len)` raises (`none`). -/
def pyGet (l : List α) (i : Int) : Option α :=
  if 0 ≤ i then l[i.toNat]?
  else if -(l.length : Int) ≤ i then l[(i + l.length).toNat]?
  else none

/-- Read entry `(i, j)` of a nested list (plain nonnegative indexing). -/
def mEntry (m : List (List α)) (i j : Nat) : Option α :=
  m[i]?.bind fun row => row[j]?

/-- Read entry `(i, j)` of a nested list where the row index is a Python
index (a negative row index wraps around). -/
def wrapEntry (m : List (List α)) (i : Int) (j : Nat) : Option α :=
  (pyGet m i).bind fun row => row[j]?

/-- Discrete difference `np.diff` on a 1D array: adjacent differences `a[k+1] - a[k]`. -/
def npDiff (a : List ℚ) : List ℚ := (a.zip a.tail).map fun p => p.2 - p.1

/-- Translation of `makeCoordArr`: the H×W grid of `(lat, lon)` coordinate pairs. -/
def makeCoordArr (lat lon : List ℚ) : List (List (ℚ × ℚ)) :=
  lat.map fun x => lon.map fun y => (x, y)

/-- Translation of `sliceTupleArray`: project each coordinate pair of the grid to its
`index`-th component (0 = lat, 1 = lon). -/
def sliceTupleArray (tupleArray : List (List (ℚ × ℚ))) (index : Nat) : List (List ℚ) :=
  tupleArray.map fun row => row.map fun p => if index = 0 then p.1 else p.2

/-- Local `latdata = sliceTupleArray(coordarr, 0)`. -/
def latdataOf (lat lon : List ℚ) : List (List ℚ) :=
  sliceTupleArray (makeCoordArr lat lon) 0

/-- Local `londata = sliceTupleArray(coordarr, 1)`. -/
def londataOf (lat lon : List ℚ) : List (List ℚ) :=
  sliceTupleArray (makeCoordArr lat lon) 1

/-- Local `dpdlon = np.diff(U.data) / np.diff(londata)`: elementwise quotient
of rowwise adjacent differences. -/
def dpdlonOf (F : List (List ℚ)) (lat lon : List ℚ) : List (List (Option ℚ)) :=
  List.zipWith (List.zipWith fdiv) (F.map npDiff) ((londataOf lat lon).map npDiff)

/-- Inner loop of the stage-1 screen: `for y in range(x)`, reading
`dpdlon[x][y]`; an out-of-range read raises an uncaught `IndexError`
(`none`); otherwise the cells passing `abs(dpdlon[x][y]) <= bound` are
collected in order. -/
def scanCols (row : List (Option ℚ)) (bound : ℚ) (x : Nat) :
    List Nat → Option (List (Nat × Nat))
  | [] => some []
  | y :: ys =>
      match row[y]? with
      | none => none
      | some v =>
          (scanCols row bound x ys).map fun rest =>
            if absLe v bound then (x, y) :: rest else rest

/-- Outer loop of the stage-1 screen: `for x in range(len(dpdlon))`,
with `x` the index of the row currently scanned. -/
def scanRows (bound : ℚ) (x : Nat) : List (List (Option ℚ)) → Option (List (Nat × Nat))
  | [] => some []
  | row :: rest =>
      match scanCols row bound x (List.range x), scanRows bound (x + 1) rest with
      | some c, some cs => some (c ++ cs)
      | _, _ => none

/-- Local `lonZeros`: the stage-1 longitude-stationary candidates. -/
def lonZeros (dpdlon : List (List (Option ℚ))) (bound : ℚ) : Option (List (Nat × Nat)) :=
  scanRows bound 0 dpdlon

def lonZerosOf (F : List (List ℚ)) (lat lon : List ℚ) (bound : ℚ) :
    Option (List (Nat × Nat)) :=
  lonZeros (dpdlonOf F lat lon) bound

/-- Stage-2 screen for one candidate: the `try` block computes
`dpdlat = (U.data[x+1][y] - U.data[x][y]) / (latdata[x+1][y] - latdata[x][y])`;
an `IndexError` is caught and the candidate skipped (`false`); otherwise
the candidate is kept when `abs(dpdlat) <= bound`.  The `except` branch
also prints `(x+1, y)` to the console before continuing; that console
side effect is modelled separately by `stage2print`. -/
def stage2keep (F latdata : List (List ℚ)) (bound : ℚ) : Nat × Nat → Bool
  | (x, y) =>
      match mEntry F (x + 1) y, mEntry F x y,
            mEntry latdata (x + 1) y, mEntry latdata x y with
      | some u1, some u0, some l1, some l0 => absLe (fdiv (u1 - u0) (l1 - l0)) bound
      | _, _, _, _ => false

/-- Console side effect of the stage-2 `except` branch: when any lookup
of the `try` block raises, the source executes `print((x+1, y))` before
`continue`; the printed tuple is recorded (`some (x+1, y)`), and nothing
is printed (`none`) when every lookup succeeds. -/
def stage2print (F latdata : List (List ℚ)) : Nat × Nat → Option (Nat × Nat)
  | (x, y) =>
      match mEntry F (x + 1) y, mEntry F x y,
            mEntry latdata (x + 1) y, mEntry latdata x y with
      | some _, some _, some _, some _ => none
      | _, _, _, _ => some (x + 1, y)

/-- Console output of a whole call: the tuples printed by the stage-2
`except` branch, one per skipped candidate, in scan order (`none` when
stage 1 aborts before stage 2 runs). -/
def consoleOf (F : List (List ℚ)) (lat lon : List ℚ) (bound : ℚ) :
    Option (List (Nat × Nat)) :=
  (lonZerosOf F lat lon bound).map (List.filterMap (stage2print F (latdataOf lat lon)))

/-- Local `arraylocations`: the stage-1 candidates retained by the stage-2
latitude screen (the parallel list `coords` of the source holds the same
pairs and is not used afterwards). -/
def arraylocationsOf (F : List (List ℚ)) (lat lon : List ℚ) (bound : ℚ) :
    Option (List (Nat × Nat)) :=
  (lonZerosOf F lat lon bound).map (List.filter (stage2keep F (latdataOf lat lon) bound))

/-- Stage-3 confirmation for one candidate: evaluate
`U.data[x+step][y] > U.data[x][y] and U.data[x-step][y] > U.data[x][y]`
with Python short-circuiting; an `IndexError` from either lookup is
caught and the candidate skipped; on success emit `(-x, y - 180)`.  The
row index `x - step` can be negative, in which case the lookup wraps
around to row `len + (x - step)` (`wrapEntry`). -/
def stage3emit (F : List (List ℚ)) (step : Nat) : Nat × Nat → Option (Int × Int)
  | (x, y) =>
      match mEntry F (x + step) y, mEntry F x y with
      | some up, some mid =>
          if mid < up then
            match wrapEntry F ((x : Int) - step) y with
            | some down =>
                if mid < down then some (-(x : Int), (y : Int) - 180) else none
            | none => none
          else none
      | _, _ => none

/-- Translation of `findLocalMinima`, with the implicit inputs passed explicitly: the
field `F` (`U.data`), the coordinate arrays, the zero threshold `bound`
and the neighbor offset `step`.  `none` models the uncaught stage-1
`IndexError`. -/
def findLocalMinima (F : List (List ℚ)) (lat lon : List ℚ) (bound : ℚ) (step : Nat) :
    Option (List (Int × Int)) :=
  (arraylocationsOf F lat lon bound).map (List.filterMap (stage3emit F step))

/-- Adjacent-pair monotonicity of the field along both grid axes: within
each row (longitude axis) and down each column (latitude axis). -/
def monoBothB (F : List (List ℚ)) : Bool :=
  (F.all fun r => (r.zip r.tail).all fun p => decide (p.1 ≤ p.2)) &&
    ((F.zip F.tail).all fun q => (q.1.zip q.2).all fun p => decide (p.1 ≤ p.2))

/-- All adjacent pairs of a 1D array satisfy `p` (used to state that a
coordinate array is strictly increasing, or has distinct neighbors). -/
def adjacentAll (p : ℚ → ℚ → Bool) (l : List ℚ) : Bool :=
  (l.zip l.tail).all fun q => p q.1 q.2

/-- The stage-1 screen condition of the spec at cell `(i, j)`:
`|(F[i][j+1] - F[i][j]) / (lon[j+1] - lon[j])| ≤ bound`, with all four
reads in range (`absLe`/`fdiv` give the NumPy float semantics). -/
def lonScreen (F : List (List ℚ)) (lon : List ℚ) (bound : ℚ) (i j : Nat) : Prop :=
  ∃ a b c d, mEntry F i (j + 1) = some a ∧ mEntry F i j = some b ∧
    lon[j + 1]? = some c ∧ lon[j]? = some d ∧ absLe (fdiv (a - b) (c - d)) bound = true

/-- The stage-3 strict-minimum condition with Python row indexing for the
`x - step` neighbor (a negative row index wraps around). -/
def pyStrictMin (F : List (List ℚ)) (step x y : Nat) : Prop :=
  ∃ up mid down, mEntry F (x + step) y = some up ∧ mEntry F x y = some mid ∧
    wrapEntry F ((x : Int) - step) y = some down ∧ mid < up ∧ mid < down

/-- The stage-3 strict-minimum condition with both neighbor rows in
bounds (meaningful when `step ≤ x` and `x + step < H`). -/
def strictMinIn (F : List (List ℚ)) (step x y : Nat) : Prop :=
  ∃ up mid down, mEntry F (x + step) y = some up ∧ mEntry F x y = some mid ∧
    mEntry F (x - step) y = some down ∧ mid < up ∧ mid < down

/-- The arrays reachable by `findLocalMinima`. -/
structure GridState where
  U : List (List ℚ)
  lat : List ℚ
  lon : List ℚ

/-- State-and-console threading form of `findLocalMinima`: the source
assigns only to fresh locals (`coordarr`, `latdata`, `londata`,
`dpdlon`, `lonZeros`, `arraylocations`, `coords`, `minima`) and never
stores into `U.data` or the coordinate arrays, so the array state is
returned unchanged; its observable effects are the console lines printed
by the stage-2 `except` branch (`consoleOf`) and the returned sequence. -/
def findLocalMinimaRun (s : GridState) (bound : ℚ) (step : Nat) :
    GridState × Option (List (Nat × Nat)) × Option (List (Int × Int)) :=
  (s, consoleOf s.U s.lat s.lon bound, findLocalMinima s.U s.lat s.lon bound step)

/-- The 5×5 paraboloid field of the spec example:
`F[i][j] = (i-2)^2 + (j-2)^2` (the special case `F[2][2] = 0` agrees
with the formula). -/
def Fpara : List (List ℚ) :=
  [[8, 5, 4, 5, 8],
   [5, 2, 1, 2, 5],
   [4, 1, 0, 1, 4],
   [5, 2, 1, 2, 5],
   [8, 5, 4, 5, 8]]

/-- A 5×5 field increasing by `1/100` per cell along both axes. -/
def Fmono : List (List ℚ) :=
  [[0, 1/100, 2/100, 3/100, 4/100],
   [1/100, 2/100, 3/100, 4/100, 5/100],
   [2/100, 3/100, 4/100, 5/100, 6/100],
   [3/100, 4/100, 5/100, 6/100, 7/100],
   [4/100, 5/100, 6/100, 7/100, 8/100]]

/-- Unit-spaced coordinates for a 5-point axis. -/
def coords5 : List ℚ := [0, 1, 2, 3, 4]

/-- Coordinates spaced 4 apart for a 5-point axis. -/
def coords5w : List ℚ := [0, 4, 8, 12, 16]


theorem npDiff_cons (a b : ℚ) (l : List ℚ) :
    npDiff (a :: b :: l) = (b - a) :: npDiff (b :: l) := rfl

theorem npDiff_getElem? :
    ∀ (a : List ℚ) (j : Nat),
      (npDiff a)[j]? =
        match a[j]?, a[j + 1]? with
        | some p, some q => some (q - p)
        | _, _ => none
  | [], j => by simp [npDiff]
  | [a], j => by cases j <;> simp [npDiff]
  | a :: b :: l, 0 => by simp [npDiff_cons]
  | a :: b :: l, j + 1 => by
      simpa [npDiff_cons] using npDiff_getElem? (b :: l) j

theorem npDiff_length (a : List ℚ) : (npDiff a).length = a.length - 1 := by
  simp [npDiff, List.length_zip, List.length_tail]

theorem tail_getElem? (l : List α) (i : Nat) : l.tail[i]? = l[i + 1]? := by
  cases l <;> simp

theorem zip_getElem? (as : List α) (bs : List β) (i : Nat) :
    (as.zip bs)[i]? =
      match as[i]?, bs[i]? with
      | some a, some b => some (a, b)
      | _, _ => none := by
  simp only [List.zip, List.getElem?_zipWith]
  cases as[i]? <;> cases bs[i]? <;> rfl

theorem adjacentAll_spec {p : ℚ → ℚ → Bool} {l : List ℚ} (h : adjacentAll p l = true)
    {i : Nat} {a b : ℚ} (ha : l[i]? = some a) (hb : l[i + 1]? = some b) : p a b = true := by
  have hmem : (a, b) ∈ l.zip l.tail := by
    apply List.getElem?_mem (n := i)
    rw [zip_getElem?, ha, tail_getElem?, hb]
  exact List.all_eq_true.mp h (a, b) hmem

theorem londataOf_eq (lat lon : List ℚ) : londataOf lat lon = lat.map fun _ => lon := by
  unfold londataOf sliceTupleArray makeCoordArr
  rw [List.map_map]
  refine List.map_congr_left fun a _ => ?_
  rw [Function.comp_apply, List.map_map]
  simp

theorem latdataOf_eq (lat lon : List ℚ) :
    latdataOf lat lon = lat.map fun v => lon.map fun _ => v := by
  unfold latdataOf sliceTupleArray makeCoordArr
  rw [List.map_map]
  refine List.map_congr_left fun a _ => ?_
  simp

theorem mEntry_latdataOf {lat lon : List ℚ} {i : Nat} {a : ℚ} (j : Nat)
    (ha : lat[i]? = some a) (hj : j < lon.length) :
    mEntry (latdataOf lat lon) i j = some a := by
  rw [mEntry, latdataOf_eq, List.getElem?_map, ha]
  simp [List.getElem?_replicate, hj]

theorem mEntry_latdataOf_none {lat : List ℚ} (lon : List ℚ) {i : Nat} (j : Nat)
    (ha : lat[i]? = none) : mEntry (latdataOf lat lon) i j = none := by
  rw [mEntry, latdataOf_eq, List.getElem?_map, ha]
  rfl

theorem dpdlonOf_getElem? (F : List (List ℚ)) (lat lon : List ℚ) (i : Nat) :
    (dpdlonOf F lat lon)[i]? =
      match F[i]?, lat[i]? with
      | some r, some _ => some (List.zipWith fdiv (npDiff r) (npDiff lon))
      | _, _ => none := by
  rw [dpdlonOf, List.getElem?_zipWith, List.getElem?_map, List.getElem?_map, londataOf_eq,
    List.getElem?_map]
  cases F[i]? <;> cases lat[i]? <;> rfl

theorem mEntry_mem {m : List (List α)} {i j : Nat} {a : α} (h : mEntry m i j = some a) :
    ∃ r ∈ m, a ∈ r := by
  rw [mEntry] at h
  cases hr : m[i]? with
  | none => rw [hr] at h; cases h
  | some r =>
      rw [hr] at h
      exact ⟨r, List.getElem?_mem hr, List.getElem?_mem h⟩

theorem mEntry_isSome {F : List (List α)} {W i j : Nat}
    (hrect : ∀ r ∈ F, r.length = W) (hi : i < F.length) (hj : j < W) :
    ∃ v, mEntry F i j = some v := by
  rw [mEntry, List.getElem?_eq_getElem hi]
  have hlen : j < (F[i]).length := by
    rw [hrect (F[i]) (F.getElem_mem hi)]; exact hj
  exact ⟨F[i][j], by simp [List.getElem?_eq_getElem hlen]⟩

theorem mEntry_none_of_row_oob {F : List (List α)} {i : Nat} (j : Nat)
    (hi : F.length ≤ i) : mEntry F i j = none := by
  rw [mEntry, List.getElem?_eq_none hi]
  rfl

theorem mEntry_eq_some {m : List (List α)} {i j : Nat} {a : α} :
    mEntry m i j = some a ↔ ∃ r, m[i]? = some r ∧ r[j]? = some a := by
  rw [mEntry]
  cases h : m[i]? <;> simp [h]

theorem zipWith_fdiv_getElem? (num den : List ℚ) (j : Nat) :
    (List.zipWith fdiv (npDiff num) (npDiff den))[j]? =
      match num[j]?, num[j + 1]?, den[j]?, den[j + 1]? with
      | some nb, some na, some db, some da => some (fdiv (na - nb) (da - db))
      | _, _, _, _ => none := by
  rw [List.getElem?_zipWith, npDiff_getElem?, npDiff_getElem?]
  cases num[j]? <;> cases num[j + 1]? <;> cases den[j]? <;> cases den[j + 1]? <;> rfl

theorem scanCols_eq (row : List (Option ℚ)) (b : ℚ) (x : Nat) :
    ∀ ys : List Nat, (∀ y ∈ ys, y < row.length) →
      scanCols row b x ys = some (ys.filterMap fun y =>
        row[y]?.bind fun v => if absLe v b then some (x, y) else none)
  | [], _ => by simp [scanCols]
  | y :: ys, h => by
      obtain ⟨v, hv⟩ : ∃ v, row[y]? = some v :=
        ⟨_, List.getElem?_eq_getElem (h y (List.mem_cons_self y ys))⟩
      rw [scanCols, hv,
        scanCols_eq row b x ys (fun z hz => h z (List.mem_cons_of_mem y hz)),
        List.filterMap_cons, hv]
      cases habs : absLe v b <;> simp [habs]

theorem scanRows_char (b : ℚ) :
    ∀ (d : List (List (Option ℚ))) (k : Nat),
      (∀ i r, d[i]? = some r → k + i ≤ r.length) →
      ∃ L, scanRows b k d = some L ∧
        ∀ i j : Nat, ((i, j) ∈ L ↔
          k ≤ i ∧ j < i ∧ ∃ r v, d[i - k]? = some r ∧ r[j]? = some v ∧ absLe v b = true)
  | [], k, _ => ⟨[], rfl, by simp⟩
  | row :: rest, k, h => by
      have hrow : k ≤ row.length := by simpa using h 0 row (by simp)
      have hcols := scanCols_eq row b k (List.range k)
        (fun y hy => lt_of_lt_of_le (List.mem_range.mp hy) hrow)
      obtain ⟨L, hL, hmem⟩ := scanRows_char b rest (k + 1)
        (fun i r hr => by have := h (i + 1) r (by simpa using hr); omega)
      refine ⟨_, by rw [scanRows, hcols, hL], ?_⟩
      intro i j
      rw [List.mem_append]
      constructor
      · rintro (hin | hin)
        · obtain ⟨y, hy, hfy⟩ := List.mem_filterMap.mp hin
          have hyk := List.mem_range.mp hy
          cases hvy : row[y]? with
          | none => rw [hvy] at hfy; cases hfy
          | some v =>
              rw [hvy] at hfy
              cases habs : absLe v b with
              | false => simp [habs] at hfy
              | true =>
                  simp [habs] at hfy
                  obtain ⟨hk, hyj⟩ := hfy
                  subst hk; subst hyj
                  exact ⟨le_refl k, hyk, row, v, by simp, hvy, habs⟩
        · obtain ⟨h1, h2, r, v, hr, hv, habs⟩ := (hmem i j).mp hin
          refine ⟨by omega, h2, r, v, ?_, hv, habs⟩
          have hik : i - k = (i - (k + 1)) + 1 := by omega
          rw [hik, List.getElem?_cons_succ]
          exact hr
      · rintro ⟨hki, hji, r, v, hr, hv, habs⟩
        by_cases hik : i = k
        · subst hik
          simp only [Nat.sub_self, List.getElem?_cons_zero, Option.some.injEq] at hr
          subst hr
          left
          refine List.mem_filterMap.mpr ⟨j, List.mem_range.mpr hji, ?_⟩
          rw [hv]
          simp [habs]
        · right
          refine (hmem i j).mpr ⟨by omega, hji, r, v, ?_, hv, habs⟩
          have hik2 : i - k = (i - (k + 1)) + 1 := by omega
          rw [hik2, List.getElem?_cons_succ] at hr
          exact hr

theorem lonZerosOf_char {F : List (List ℚ)} {lat lon : List ℚ} {b : ℚ} {H W : Nat}
    (hF : F.length = H) (hrect : ∀ r ∈ F, r.length = W)
    (hlat : lat.length = H) (hlon : lon.length = W) (hHW : H ≤ W) :
    ∃ L, lonZerosOf F lat lon b = some L ∧
      ∀ i j : Nat, ((i, j) ∈ L ↔ j < i ∧ i < H ∧ lonScreen F lon b i j) := by
  have hdim : ∀ i r, (dpdlonOf F lat lon)[i]? = some r → 0 + i ≤ r.length := by
    intro i r hr
    rw [dpdlonOf_getElem?] at hr
    cases hFi : F[i]? with
    | none => rw [hFi] at hr; cases lat[i]? <;> cases hr
    | some fr =>
        rw [hFi] at hr
        cases hlati : lat[i]? with
        | none => rw [hlati] at hr; cases hr
        | some lv =>
            rw [hlati] at hr
            have hrl : r = List.zipWith fdiv (npDiff fr) (npDiff lon) :=
              (Option.some.injEq .. ▸ hr).symm
            have hiH : i < H := by
              have := (List.getElem?_eq_some_iff.mp hFi).1
              omega
            have hfr : fr.length = W := hrect fr (List.getElem?_mem hFi)
            rw [hrl, List.length_zipWith, npDiff_length, npDiff_length, hfr, hlon]
            omega
  obtain ⟨L, hL, hmem⟩ := scanRows_char b (dpdlonOf F lat lon) 0 hdim
  refine ⟨L, hL, fun i j => ?_⟩
  rw [hmem i j]
  constructor
  · rintro ⟨-, hji, r, v, hr, hv, habs⟩
    rw [Nat.sub_zero, dpdlonOf_getElem?] at hr
    cases hFi : F[i]? with
    | none => rw [hFi] at hr; cases lat[i]? <;> cases hr
    | some fr =>
        rw [hFi] at hr
        cases hlati : lat[i]? with
        | none => rw [hlati] at hr; cases hr
        | some lv =>
            rw [hlati] at hr
            have hrl : r = List.zipWith fdiv (npDiff fr) (npDiff lon) :=
              (Option.some.injEq .. ▸ hr).symm
            subst hrl
            rw [zipWith_fdiv_getElem?] at hv
            have hiH : i < H := by
              have := (List.getElem?_eq_some_iff.mp hFi).1
              omega
            refine ⟨hji, hiH, ?_⟩
            cases h1 : fr[j]? with
            | none => rw [h1] at hv; cases hv
            | some nb =>
                cases h2 : fr[j + 1]? with
                | none => rw [h1, h2] at hv; cases hv
                | some na =>
                    cases h3 : lon[j]? with
                    | none => rw [h1, h2, h3] at hv; cases hv
                    | some db =>
                        cases h4 : lon[j + 1]? with
                        | none => rw [h1, h2, h3, h4] at hv; cases hv
                        | some da =>
                            rw [h1, h2, h3, h4] at hv
                            have hveq : v = fdiv (na - nb) (da - db) :=
                              (Option.some.injEq .. ▸ hv).symm
                            exact ⟨na, nb, da, db,
                              mEntry_eq_some.mpr ⟨fr, hFi, h2⟩,
                              mEntry_eq_some.mpr ⟨fr, hFi, h1⟩, h4, h3, hveq ▸ habs⟩
  · rintro ⟨hji, hiH, a, b', c, d', hma, hmb, hc, hd, habs⟩
    obtain ⟨fr, hFi, hfra⟩ := mEntry_eq_some.mp hma
    obtain ⟨fr2, hFi2, hfrb⟩ := mEntry_eq_some.mp hmb
    rw [hFi] at hFi2
    have hfr2 : fr = fr2 := Option.some.injEq .. ▸ hFi2
    subst hfr2
    obtain ⟨lv, hlati⟩ : ∃ lv, lat[i]? = some lv :=
      ⟨_, List.getElem?_eq_getElem (by omega)⟩
    refine ⟨Nat.zero_le i, hji, List.zipWith fdiv (npDiff fr) (npDiff lon),
      fdiv (a - b') (c - d'), ?_, ?_, habs⟩
    · rw [Nat.sub_zero, dpdlonOf_getElem?, hFi, hlati]
    · rw [zipWith_fdiv_getElem?, hfrb, hfra, hd, hc]

theorem arraylocationsOf_eq {F : List (List ℚ)} {lat lon : List ℚ} {b : ℚ}
    {L : List (Nat × Nat)} (hL : lonZerosOf F lat lon b = some L) :
    arraylocationsOf F lat lon b =
      some (L.filter (stage2keep F (latdataOf lat lon) b)) := by
  rw [arraylocationsOf, hL]
  rfl

theorem findLocalMinima_eq {F : List (List ℚ)} {lat lon : List ℚ} {b : ℚ} {step : Nat}
    {A : List (Nat × Nat)} (hA : arraylocationsOf F lat lon b = some A) :
    findLocalMinima F lat lon b step = some (A.filterMap (stage3emit F step)) := by
  rw [findLocalMinima, hA]
  rfl

theorem stage2keep_iff {F : List (List ℚ)} {lat lon : List ℚ} {b : ℚ} {W : Nat}
    (hrect : ∀ r ∈ F, r.length = W) (hlon : lon.length = W)
    (hlatF : lat.length = F.length)
    {x y : Nat} (hx : x < F.length) (hy : y < W)
    (hne : adjacentAll (fun a b2 => decide (a ≠ b2)) lat = true) :
    stage2keep F (latdataOf lat lon) b (x, y) = true ↔
      x + 1 < F.length ∧ ∃ u1 u0 l1 l0,
        mEntry F (x + 1) y = some u1 ∧ mEntry F x y = some u0 ∧
        lat[x + 1]? = some l1 ∧ lat[x]? = some l0 ∧ |(u1 - u0) / (l1 - l0)| ≤ b := by
  by_cases hx1 : x + 1 < F.length
  · obtain ⟨u1, hu1⟩ := mEntry_isSome hrect hx1 hy
    obtain ⟨u0, hu0⟩ := mEntry_isSome hrect hx hy
    obtain ⟨l1v, hl1⟩ : ∃ v, lat[x + 1]? = some v :=
      ⟨_, List.getElem?_eq_getElem (show x + 1 < lat.length by omega)⟩
    obtain ⟨l0v, hl0⟩ : ∃ v, lat[x]? = some v :=
      ⟨_, List.getElem?_eq_getElem (show x < lat.length by omega)⟩
    have hyW : y < lon.length := hlon ▸ hy
    have hkeep : stage2keep F (latdataOf lat lon) b (x, y) =
        absLe (fdiv (u1 - u0) (l1v - l0v)) b := by
      simp only [stage2keep, hu1, hu0, mEntry_latdataOf y hl1 hyW, mEntry_latdataOf y hl0 hyW]
    have hnz : l1v - l0v ≠ 0 := by
      have hpair := adjacentAll_spec hne hl0 hl1
      have hne2 : l0v ≠ l1v := by simpa using hpair
      exact sub_ne_zero.mpr (Ne.symm hne2)
    rw [hkeep, fdiv, if_neg hnz]
    constructor
    · intro htrue
      exact ⟨hx1, u1, u0, l1v, l0v, hu1, hu0, hl1, hl0,
        by simpa [absLe] using htrue⟩
    · rintro ⟨-, u1', u0', l1', l0', hu1', hu0', hl1', hl0', hle⟩
      rw [hu1] at hu1'
      rw [hu0] at hu0'
      rw [hl1] at hl1'
      rw [hl0] at hl0'
      obtain rfl : u1 = u1' := Option.some.injEq .. ▸ hu1'
      obtain rfl : u0 = u0' := Option.some.injEq .. ▸ hu0'
      obtain rfl : l1v = l1' := Option.some.injEq .. ▸ hl1'
      obtain rfl : l0v = l0' := Option.some.injEq .. ▸ hl0'
      simpa [absLe] using hle
  · have hnone : mEntry F (x + 1) y = none := mEntry_none_of_row_oob y (by omega)
    constructor
    · intro h
      exfalso
      simp only [stage2keep, hnone] at h
      revert h
      cases mEntry F x y <;>
        cases mEntry (latdataOf lat lon) (x + 1) y <;>
          cases mEntry (latdataOf lat lon) x y <;> simp
    · rintro ⟨h1, -⟩
      omega

theorem stage3emit_eq_some_iff {F : List (List ℚ)} {step x y : Nat} {p : Int × Int} :
    stage3emit F step (x, y) = some p ↔
      p = (-(x : Int), (y : Int) - 180) ∧ pyStrictMin F step x y := by
  constructor
  · intro h
    simp only [stage3emit] at h
    split at h
    case _ up mid h1 h2 =>
      split at h
      case isTrue hlt =>
        split at h
        case _ down h3 =>
          split at h
          case isTrue hlt2 =>
            exact ⟨(Option.some.injEq .. ▸ h).symm, up, mid, down, h1, h2, h3, hlt, hlt2⟩
          case isFalse => cases h
        case _ => cases h
      case isFalse => cases h
    case _ => cases h
  · rintro ⟨rfl, up, mid, down, h1, h2, h3, hlt1, hlt2⟩
    simp only [stage3emit, h1, h2, if_pos hlt1, h3, if_pos hlt2]

theorem stage3emit_none_of_up_oob {F : List (List ℚ)} {step x : Nat} (y : Nat)
    (h : F.length ≤ x + step) : stage3emit F step (x, y) = none := by
  simp only [stage3emit, mEntry_none_of_row_oob y h]

theorem stage3emit_none_of_down_oob {F : List (List ℚ)} {step x y : Nat}
    (h : (x : Int) - step < -(F.length : Int)) : stage3emit F step (x, y) = none := by
  have hw : wrapEntry F ((x : Int) - step) y = none := by
    unfold wrapEntry pyGet
    rw [if_neg (by omega), if_neg (by omega)]
    rfl
  simp only [stage3emit, hw]
  split
  · split <;> rfl
  · rfl

theorem wrapEntry_nonneg {F : List (List ℚ)} {step x : Nat} (y : Nat) (hsx : step ≤ x) :
    wrapEntry F ((x : Int) - step) y = mEntry F (x - step) y := by
  unfold wrapEntry pyGet mEntry
  rw [if_pos (by omega)]
  have hidx : ((x : Int) - step).toNat = x - step := by omega
  rw [hidx]

theorem stage3emit_wrap {F : List (List ℚ)} {step x y : Nat} {up mid down : ℚ}
    (hx : x < step) (hd : step - x ≤ F.length)
    (hup : mEntry F (x + step) y = some up) (hmid : mEntry F x y = some mid)
    (hdown : mEntry F (F.length - (step - x)) y = some down)
    (h1 : mid < up) (h2 : mid < down) :
    stage3emit F step (x, y) = some (-(x : Int), (y : Int) - 180) := by
  have hw : wrapEntry F ((x : Int) - step) y = mEntry F (F.length - (step - x)) y := by
    unfold wrapEntry pyGet mEntry
    rw [if_neg (by omega), if_pos (by omega)]
    have hidx : ((x : Int) - step + F.length).toNat = F.length - (step - x) := by omega
    rw [hidx]
  simp only [stage3emit, hup, hmid, if_pos h1, hw, hdown, if_pos h2]

theorem stage3emit_const {F : List (List ℚ)} {c : ℚ} (step : Nat) (q : Nat × Nat)
    (hc : ∀ r ∈ F, ∀ v ∈ r, v = c) : stage3emit F step q = none := by
  obtain ⟨x, y⟩ := q
  simp only [stage3emit]
  split
  case _ up mid h1 h2 =>
    obtain ⟨r1, hr1, hv1⟩ := mEntry_mem h1
    obtain ⟨r2, hr2, hv2⟩ := mEntry_mem h2
    rw [if_neg (by rw [hc r1 hr1 up hv1, hc r2 hr2 mid hv2]; exact lt_irrefl c)]
  case _ => rfl

theorem lonScreen_entry {F : List (List ℚ)} (lat : List ℚ) {lon : List ℚ} {eps : ℚ}
    {i j : Nat} (hiH : i < lat.length) (hs : lonScreen F lon eps i j) :
    ∃ r v, (dpdlonOf F lat lon)[i]? = some r ∧ r[j]? = some v ∧ absLe v eps = true := by
  obtain ⟨a, b', c, d', hma, hmb, hc, hd, habs⟩ := hs
  obtain ⟨fr, hFi, hfra⟩ := mEntry_eq_some.mp hma
  obtain ⟨fr2, hFi2, hfrb⟩ := mEntry_eq_some.mp hmb
  rw [hFi] at hFi2
  have hfr2 : fr = fr2 := Option.some.injEq .. ▸ hFi2
  subst hfr2
  obtain ⟨lv, hlati⟩ : ∃ v, lat[i]? = some v := ⟨_, List.getElem?_eq_getElem hiH⟩
  refine ⟨List.zipWith fdiv (npDiff fr) (npDiff lon), fdiv (a - b') (c - d'), ?_, ?_, habs⟩
  · rw [dpdlonOf_getElem?, hFi, hlati]
  · rw [zipWith_fdiv_getElem?, hfrb, hfra, hd, hc]

/-- C1 counterexample: on the 2×3 zero field with `lon = [0,1,2]` and
`ε = 0`, the cell `(1,1)` satisfies the longitude screen
(`dpdlon[1][1] = 0`, `|0| ≤ 0`), and `j = 1` lies in `0..i` inclusive for
`i = 1`, yet stage 1 produces only `(1,0)`: the scan runs over
`range(x)`, i.e. `j < i`, excluding `j = i`. -/
theorem stage1_scan_bound_cex :
    mEntry (dpdlonOf [[0,0,0],[0,0,0]] [0,1] [0,1,2]) 1 1 = some (some 0) ∧
    absLe (some 0) 0 = true ∧
    lonZerosOf [[0,0,0],[0,0,0]] [0,1] [0,1,2] 0 = some [(1,0)] ∧
    (1,1) ∉ ([(1,0)] : List (Nat × Nat)) := by
  with_unfolding_all decide

/-- C1 amended: stage 1 scans, for each row `i`, exactly the column
indices `0 ≤ j < i` (strictly below `i`, not `0..i` inclusive): given a
rectangular H×W field with matching coordinate arrays and `H ≤ W` (so
the scan never reads `dpdlon` out of range), the stage-1 candidate list
exists and contains `(i,j)` iff `j < i`, `i < H`, and the longitude
screen `|dF_dlon[i][j]| ≤ ε` holds. -/
theorem stage1_scan_strict_char {F : List (List ℚ)} {lat lon : List ℚ} {eps : ℚ}
    {H W : Nat}
    (hF : F.length = H) (hrect : ∀ r ∈ F, r.length = W)
    (hlat : lat.length = H) (hlon : lon.length = W) (hHW : H ≤ W) :
    ∃ L, lonZerosOf F lat lon eps = some L ∧
      ∀ i j : Nat, ((i, j) ∈ L ↔ j < i ∧ i < H ∧ lonScreen F lon eps i j) :=
  lonZerosOf_char hF hrect hlat hlon hHW

/-- Witness for C1 amended at the concrete 5×5 increasing field. -/
theorem stage1_scan_strict_char_witness :
    ∃ L, lonZerosOf Fmono coords5 coords5 (1/50) = some L ∧
      ∀ i j : Nat, ((i, j) ∈ L ↔ j < i ∧ i < 5 ∧ lonScreen Fmono coords5 (1/50) i j) :=
  stage1_scan_strict_char
    (show Fmono.length = 5 by with_unfolding_all decide)
    (show ∀ r ∈ Fmono, r.length = 5 by with_unfolding_all decide)
    (show coords5.length = 5 by with_unfolding_all decide)
    (show coords5.length = 5 by with_unfolding_all decide)
    (show 5 ≤ 5 by with_unfolding_all decide)

/-- C2 counterexample: on the 5×5 field increasing by `1/100` per cell
(`ε = 1/50`, `step = 2`, `H = 5`), the retained candidate `(1,0)` has
`1 - 2 = -1` outside `[0,5)`, yet it is not excluded: the negative row
index wraps around to row 4 and the candidate is emitted as
`(-1, -180)`, the sole output element. -/
theorem stage3_wrap_not_excluded_cex :
    arraylocationsOf Fmono coords5 coords5 (1/50) =
        some [(1,0),(2,0),(2,1),(3,0),(3,1),(3,2)] ∧
    findLocalMinima Fmono coords5 coords5 (1/50) 2 = some [(-1, -180)] ∧
    ((1 : Int) - 2 < 0) := by
  with_unfolding_all decide

/-- C2 amended: a retained candidate is excluded from the output when
`i + step ≥ H` (the upper lookup raises and the candidate is skipped),
or when `i - step < -H` (even Python negative indexing raises); a
candidate with `-H ≤ i - step < 0` is instead compared against the
wrapped row `H + (i - step)` and may be emitted. -/
theorem stage3_oob_excluded {F : List (List ℚ)} {lat lon : List ℚ} {b : ℚ}
    {step x y : Nat} {A : List (Nat × Nat)}
    (hA : arraylocationsOf F lat lon b = some A) (_hmem : (x, y) ∈ A)
    (hoob : F.length ≤ x + step ∨ (x : Int) - step < -(F.length : Int)) :
    stage3emit F step (x, y) = none ∧
      findLocalMinima F lat lon b step = some (A.filterMap (stage3emit F step)) := by
  refine ⟨?_, findLocalMinima_eq hA⟩
  rcases hoob with h | h
  · exact stage3emit_none_of_up_oob y h
  · exact stage3emit_none_of_down_oob h

/-- Witness for C2 amended at the concrete candidate `(3,0)` with
`3 + 2 ≥ 5`. -/
theorem stage3_oob_excluded_witness :
    stage3emit Fmono 2 (3, 0) = none ∧
      findLocalMinima Fmono coords5 coords5 (1/50) 2 =
        some (([(1,0),(2,0),(2,1),(3,0),(3,1),(3,2)] : List (Nat × Nat)).filterMap
          (stage3emit Fmono 2)) :=
  stage3_oob_excluded
    (show arraylocationsOf Fmono coords5 coords5 (1/50) =
      some [(1,0),(2,0),(2,1),(3,0),(3,1),(3,2)] by with_unfolding_all decide)
    (show ((3 : Nat), (0 : Nat)) ∈
      ([(1,0),(2,0),(2,1),(3,0),(3,1),(3,2)] : List (Nat × Nat)) by
        with_unfolding_all decide)
    (Or.inl (show Fmono.length ≤ 3 + 2 by with_unfolding_all decide))

/-- C3 confirmed: a retained candidate `(x,y)` with `x < step` is not
skipped; the `x - step` lookup wraps to row `H - (step - x)`
(equivalently `H + (x - step)`), and the candidate is emitted as
`(-x, y - 180)` whenever `F[x+step][y] > F[x][y]` and
`F[H+(x-step)][y] > F[x][y]`. -/
theorem stage3_wraparound_emits {F : List (List ℚ)} {lat lon : List ℚ} {b : ℚ}
    {step x y : Nat} {up mid down : ℚ} {A : List (Nat × Nat)}
    (hA : arraylocationsOf F lat lon b = some A) (hmem : (x, y) ∈ A)
    (hx : x < step) (hd : step - x ≤ F.length)
    (hup : mEntry F (x + step) y = some up) (hmid : mEntry F x y = some mid)
    (hdown : mEntry F (F.length - (step - x)) y = some down)
    (h1 : mid < up) (h2 : mid < down) :
    (-(x : Int), (y : Int) - 180) ∈ (findLocalMinima F lat lon b step).getD [] := by
  rw [findLocalMinima_eq hA, Option.getD_some]
  exact List.mem_filterMap.mpr ⟨(x, y), hmem, stage3emit_wrap hx hd hup hmid hdown h1 h2⟩

/-- Witness for C3 at the concrete candidate `(1,0)` of the increasing
5×5 field, emitted through the wrapped comparison with row 4. -/
theorem stage3_wraparound_emits_witness :
    (-((1 : Nat) : Int), ((0 : Nat) : Int) - 180) ∈
      (findLocalMinima Fmono coords5 coords5 (1/50) 2).getD [] :=
  stage3_wraparound_emits
    (show arraylocationsOf Fmono coords5 coords5 (1/50) =
      some [(1,0),(2,0),(2,1),(3,0),(3,1),(3,2)] by with_unfolding_all decide)
    (show ((1 : Nat), (0 : Nat)) ∈
      ([(1,0),(2,0),(2,1),(3,0),(3,1),(3,2)] : List (Nat × Nat)) by
        with_unfolding_all decide)
    (show 1 < 2 by with_unfolding_all decide)
    (show 2 - 1 ≤ Fmono.length by with_unfolding_all decide)
    (show mEntry Fmono (1 + 2) 0 = some (3/100) by with_unfolding_all decide)
    (show mEntry Fmono 1 0 = some (1/100) by with_unfolding_all decide)
    (show mEntry Fmono (Fmono.length - (2 - 1)) 0 = some (4/100) by
      with_unfolding_all decide)
    (by with_unfolding_all decide) (by with_unfolding_all decide)

/-- C4 evaluation: on the 5×5 paraboloid field of the spec example with
coordinates spaced 4 apart, `ε = 1/2` and `step = 1`, the code returns
`[(-2, -179)]` — grid cell `(2,1)` — not the claimed `[(-2, -178)]`
(grid cell `(2,2)`): stage 1 scans only columns `j < i`, so the true
minimum cell `(2,2)` is never screened. -/
theorem paraboloid_example_eval :
    findLocalMinima Fpara coords5w coords5w (1/2) 1 = some [(-2, -179)] := by
  with_unfolding_all decide

/-- C5 counterexample: on the constant 2×1 field `[[5],[5]]` with
strictly increasing coordinate arrays, the call does not return an empty
sequence: stage 1 reads `dpdlon[1][0]` out of range (the row has
`W - 1 = 0` entries) with no enclosing `try`, so the call aborts with an
uncaught `IndexError` (`none`). -/
theorem constant_field_abort_cex :
    (([[5],[5]] : List (List ℚ)).all fun r => r.all fun v => decide (v = 5)) = true ∧
    ((0 : ℚ) < 1) ∧
    findLocalMinima [[5],[5]] [0,1] [0] (1/50) 2 = none := by
  with_unfolding_all decide

/-- C5 amended: for a constant field on a grid with strictly increasing
coordinate arrays and at least as many columns as rows (`H ≤ W`, which
keeps the asymmetric stage-1 scan in bounds), the locator returns the
empty sequence: the strict `<` comparison fails for equal values. -/
theorem constant_field_empty {F : List (List ℚ)} {lat lon : List ℚ} {b c : ℚ}
    {step H W : Nat}
    (hF : F.length = H) (hrect : ∀ r ∈ F, r.length = W)
    (hlat : lat.length = H) (hlon : lon.length = W) (hHW : H ≤ W)
    (_hlatmono : adjacentAll (fun a b2 => decide (a < b2)) lat = true)
    (_hlonmono : adjacentAll (fun a b2 => decide (a < b2)) lon = true)
    (hconst : ∀ r ∈ F, ∀ v ∈ r, v = c) :
    findLocalMinima F lat lon b step = some [] := by
  obtain ⟨L, hL, -⟩ := lonZerosOf_char (b := b) hF hrect hlat hlon hHW
  rw [findLocalMinima_eq (arraylocationsOf_eq hL)]
  congr 1
  exact List.filterMap_eq_nil_iff.mpr fun q _ => stage3emit_const step q hconst

/-- Witness for C5 amended at the constant 2×2 field. -/
theorem constant_field_empty_witness :
    findLocalMinima [[5,5],[5,5]] [0,1] [0,1] (1/50) 2 = some [] :=
  constant_field_empty (c := 5)
    (show ([[5,5],[5,5]] : List (List ℚ)).length = 2 by with_unfolding_all decide)
    (show ∀ r ∈ ([[5,5],[5,5]] : List (List ℚ)), r.length = 2 by
      with_unfolding_all decide)
    (show ([0,1] : List ℚ).length = 2 by with_unfolding_all decide)
    (show ([0,1] : List ℚ).length = 2 by with_unfolding_all decide)
    (show 2 ≤ 2 by with_unfolding_all decide)
    (by with_unfolding_all decide) (by with_unfolding_all decide)
    (by with_unfolding_all decide)

/-- C6 counterexample: the 5×5 field increasing by `1/100` per cell
along both axes is monotonically increasing along both axes, yet with
the source constants `ε = 1/50`, `step = 2` the locator returns the
nonempty sequence `[(-1, -180)]` (candidate `(1,0)` passes both screens
because the slopes are below `ε`, and the wraparound comparison against
row 4 confirms it). -/
theorem monotone_field_nonempty_cex :
    monoBothB Fmono = true ∧
    findLocalMinima Fmono coords5 coords5 (1/50) 2 = some [(-1, -180)] := by
  with_unfolding_all decide

/-- C6 amended: for a field monotonically increasing along both axes
whose longitude-direction difference quotients all fail the `ε` screen
(every slope strictly exceeds the threshold), on a well-formed grid with
`H ≤ W`, the locator returns the empty sequence: stage 1 produces no
candidates. -/
theorem monotone_steep_field_empty {F : List (List ℚ)} {lat lon : List ℚ} {eps : ℚ}
    {step H W : Nat}
    (hF : F.length = H) (hrect : ∀ r ∈ F, r.length = W)
    (hlat : lat.length = H) (hlon : lon.length = W) (hHW : H ≤ W)
    (_hmono : monoBothB F = true)
    (hsteep : ((dpdlonOf F lat lon).all fun row =>
      row.all fun v => !(absLe v eps)) = true) :
    findLocalMinima F lat lon eps step = some [] := by
  obtain ⟨L, hL, hmem⟩ := lonZerosOf_char (b := eps) hF hrect hlat hlon hHW
  have hLnil : L = [] := by
    rw [List.eq_nil_iff_forall_not_mem]
    rintro ⟨i, j⟩ hij
    obtain ⟨-, hiH, hs⟩ := (hmem i j).mp hij
    obtain ⟨r, v, hr, hv, habs⟩ := lonScreen_entry lat (by omega) hs
    have h1 := List.all_eq_true.mp hsteep r (List.getElem?_mem hr)
    have h2 := List.all_eq_true.mp h1 v (List.getElem?_mem hv)
    simp [habs] at h2
  rw [findLocalMinima_eq (arraylocationsOf_eq hL), hLnil]
  rfl

/-- Witness for C6 amended at a 3×3 field with slope 1 per cell. -/
theorem monotone_steep_field_empty_witness :
    findLocalMinima [[0,1,2],[1,2,3],[2,3,4]] [0,1,2] [0,1,2] (1/50) 2 = some [] :=
  monotone_steep_field_empty
    (show ([[0,1,2],[1,2,3],[2,3,4]] : List (List ℚ)).length = 3 by
      with_unfolding_all decide)
    (show ∀ r ∈ ([[0,1,2],[1,2,3],[2,3,4]] : List (List ℚ)), r.length = 3 by
      with_unfolding_all decide)
    (show ([0,1,2] : List ℚ).length = 3 by with_unfolding_all decide)
    (show ([0,1,2] : List ℚ).length = 3 by with_unfolding_all decide)
    (show 3 ≤ 3 by with_unfolding_all decide)
    (by with_unfolding_all decide) (by with_unfolding_all decide)

/-- C7 confirmed: the output is exactly the row-major `filterMap` of the
retained candidates; every output element has the form `(-x, y - 180)`
for a retained candidate `(x,y)` that is strictly below both its
`step`-offset neighbors (the lower one read with Python wraparound
indexing); and a retained candidate with both neighbor rows in bounds
contributes its element iff it satisfies the strict-minimum condition. -/
theorem stage3_output_char {F : List (List ℚ)} {lat lon : List ℚ} {b : ℚ} {step : Nat}
    {A : List (Nat × Nat)} {M : List (Int × Int)}
    (hA : arraylocationsOf F lat lon b = some A)
    (hM : findLocalMinima F lat lon b step = some M) :
    M = A.filterMap (stage3emit F step) ∧
      (∀ p ∈ M, ∃ x y : Nat, (x, y) ∈ A ∧ p = (-(x : Int), (y : Int) - 180) ∧
        pyStrictMin F step x y) ∧
      (∀ x y : Nat, (x, y) ∈ A → step ≤ x →
        (stage3emit F step (x, y) = some (-(x : Int), (y : Int) - 180) ↔
          strictMinIn F step x y)) := by
  have hMe : M = A.filterMap (stage3emit F step) := by
    rw [findLocalMinima_eq hA] at hM
    exact (Option.some.injEq .. ▸ hM).symm
  refine ⟨hMe, ?_, ?_⟩
  · intro p hp
    rw [hMe] at hp
    obtain ⟨⟨x, y⟩, hxy, hemit⟩ := List.mem_filterMap.mp hp
    obtain ⟨hp2, hmin⟩ := stage3emit_eq_some_iff.mp hemit
    exact ⟨x, y, hxy, hp2, hmin⟩
  · intro x y _ hsx
    constructor
    · intro hemit
      obtain ⟨-, up, mid, down, h1, h2, h3, hl1, hl2⟩ := stage3emit_eq_some_iff.mp hemit
      rw [wrapEntry_nonneg y hsx] at h3
      exact ⟨up, mid, down, h1, h2, h3, hl1, hl2⟩
    · rintro ⟨up, mid, down, h1, h2, h3, hl1, hl2⟩
      exact stage3emit_eq_some_iff.mpr ⟨rfl, up, mid, down, h1, h2,
        (by rw [wrapEntry_nonneg y hsx]; exact h3), hl1, hl2⟩

/-- Witness for C7 at the increasing 5×5 field: its output equals the
`filterMap` of its retained candidates. -/
theorem stage3_output_char_witness :
    ([(-1, -180)] : List (Int × Int)) =
      ([(1,0),(2,0),(2,1),(3,0),(3,1),(3,2)] : List (Nat × Nat)).filterMap
        (stage3emit Fmono 2) :=
  (stage3_output_char
    (show arraylocationsOf Fmono coords5 coords5 (1/50) =
      some [(1,0),(2,0),(2,1),(3,0),(3,1),(3,2)] by with_unfolding_all decide)
    (show findLocalMinima Fmono coords5 coords5 (1/50) 2 = some [(-1, -180)] by
      with_unfolding_all decide)).1

/-- C8 confirmed: a stage-1 candidate `(x,y)` is retained by stage 2 iff
the forward-difference lookup at row `x+1` is in bounds and
`|(F[x+1][y] - F[x][y]) / (lat[x+1] - lat[x])| ≤ ε`; out-of-bounds
candidates are skipped non-fatally.  (The 2D coordinate-grid read
`latdata[x+1][y]` equals the 1D coordinate `lat[x+1]`; adjacent
latitudes are assumed distinct so that the quotient is an actual float
value rather than NumPy `inf`/`nan`.) -/
theorem stage2_retention_iff {F : List (List ℚ)} {lat lon : List ℚ} {eps : ℚ}
    {H W : Nat} {x y : Nat} {L A : List (Nat × Nat)}
    (hF : F.length = H) (hrect : ∀ r ∈ F, r.length = W)
    (hlat : lat.length = H) (hlon : lon.length = W) (hHW : H ≤ W)
    (hne : adjacentAll (fun a b2 => decide (a ≠ b2)) lat = true)
    (hL : lonZerosOf F lat lon eps = some L) (hmem : (x, y) ∈ L)
    (hA : arraylocationsOf F lat lon eps = some A) :
    ((x, y) ∈ A ↔ x + 1 < H ∧ ∃ u1 u0 l1 l0,
        mEntry F (x + 1) y = some u1 ∧ mEntry F x y = some u0 ∧
        lat[x + 1]? = some l1 ∧ lat[x]? = some l0 ∧
        |(u1 - u0) / (l1 - l0)| ≤ eps) := by
  obtain ⟨L2, hL2, hchar⟩ := lonZerosOf_char (b := eps) hF hrect hlat hlon hHW
  rw [hL] at hL2
  obtain rfl : L = L2 := Option.some.injEq .. ▸ hL2
  obtain ⟨hyx, hxH, -⟩ := (hchar x y).mp hmem
  have hxF : x < F.length := by omega
  have hyW : y < W := by omega
  have hAeq : A = L.filter (stage2keep F (latdataOf lat lon) eps) := by
    rw [arraylocationsOf_eq hL] at hA
    exact (Option.some.injEq .. ▸ hA).symm
  rw [hAeq, List.mem_filter]
  have hiff := stage2keep_iff (b := eps) hrect hlon
    (show lat.length = F.length by rw [hlat, hF]) hxF hyW hne
  rw [hF] at hiff
  constructor
  · rintro ⟨-, hkeep⟩
    exact hiff.mp hkeep
  · intro hrhs
    exact ⟨hmem, hiff.mpr hrhs⟩

/-- Witness for C8 at the stage-1 candidate `(1,0)` of the increasing
5×5 field. -/
theorem stage2_retention_iff_witness :
    ((1, 0) ∈ ([(1,0),(2,0),(2,1),(3,0),(3,1),(3,2)] : List (Nat × Nat)) ↔
      1 + 1 < 5 ∧ ∃ u1 u0 l1 l0,
        mEntry Fmono (1 + 1) 0 = some u1 ∧ mEntry Fmono 1 0 = some u0 ∧
        coords5[1 + 1]? = some l1 ∧ coords5[1]? = some l0 ∧
        |(u1 - u0) / (l1 - l0)| ≤ 1/50) :=
  stage2_retention_iff
    (show Fmono.length = 5 by with_unfolding_all decide)
    (show ∀ r ∈ Fmono, r.length = 5 by with_unfolding_all decide)
    (show coords5.length = 5 by with_unfolding_all decide)
    (show coords5.length = 5 by with_unfolding_all decide)
    (show 5 ≤ 5 by with_unfolding_all decide)
    (by with_unfolding_all decide)
    (show lonZerosOf Fmono coords5 coords5 (1/50) =
      some [(1,0),(2,0),(2,1),(3,0),(3,1),(3,2),(4,0),(4,1),(4,2),(4,3)] by
        with_unfolding_all decide)
    (show ((1 : Nat), (0 : Nat)) ∈
      ([(1,0),(2,0),(2,1),(3,0),(3,1),(3,2),(4,0),(4,1),(4,2),(4,3)] :
        List (Nat × Nat)) by with_unfolding_all decide)
    (show arraylocationsOf Fmono coords5 coords5 (1/50) =
      some [(1,0),(2,0),(2,1),(3,0),(3,1),(3,2)] by with_unfolding_all decide)

/-- C9 confirmed: `findLocalMinima` is a pure function of the field, the
coordinate arrays, the zero threshold and the neighbor offset; equal
inputs give equal output sequences. -/
theorem findLocalMinima_deterministic (F1 F2 : List (List ℚ))
    (lat1 lat2 lon1 lon2 : List ℚ) (b1 b2 : ℚ) (s1 s2 : Nat)
    (hF : F1 = F2) (hlat : lat1 = lat2) (hlon : lon1 = lon2)
    (hb : b1 = b2) (hs : s1 = s2) :
    findLocalMinima F1 lat1 lon1 b1 s1 = findLocalMinima F2 lat2 lon2 b2 s2 := by
  rw [hF, hlat, hlon, hb, hs]

/-- Witness for C9: two invocations on the increasing 5×5 field agree. -/
theorem findLocalMinima_deterministic_witness :
    findLocalMinima Fmono coords5 coords5 (1/50) 2 =
      findLocalMinima Fmono coords5 coords5 (1/50) 2 :=
  findLocalMinima_deterministic Fmono Fmono coords5 coords5 coords5 coords5
    (1/50) (1/50) 2 2 rfl rfl rfl rfl rfl

theorem stage2print_char (F latd : List (List ℚ)) (x y : Nat) :
    (stage2print F latd (x, y) = none ↔
      ∃ u1 u0 l1 l0, mEntry F (x + 1) y = some u1 ∧ mEntry F x y = some u0 ∧
        mEntry latd (x + 1) y = some l1 ∧ mEntry latd x y = some l0) ∧
    (stage2print F latd (x, y) ≠ none →
      stage2print F latd (x, y) = some (x + 1, y)) := by
  cases h1 : mEntry F (x + 1) y <;> cases h2 : mEntry F x y <;>
    cases h3 : mEntry latd (x + 1) y <;> cases h4 : mEntry latd x y <;>
      simp [stage2print, h1, h2, h3, h4]

/-- C10 counterexample: on the increasing 5×5 field with the source
constants, the stage-2 `except` branch executes `print((x+1, y))` for
each of the four row-4 candidates whose forward lookup is out of bounds,
so the call emits the console lines `(5,0), (5,1), (5,2), (5,3)` — a
side effect beyond the returned sequence — even though the arrays are
unchanged. -/
theorem stage2_print_side_effect_cex :
    (findLocalMinimaRun ⟨Fmono, coords5, coords5⟩ (1/50) 2).2.1 =
        some [(5,0),(5,1),(5,2),(5,3)] ∧
    some [(5,0),(5,1),(5,2),(5,3)] ≠ (some [] : Option (List (Nat × Nat))) := by
  with_unfolding_all decide

/-- C10 amended: the call does not mutate the field or the coordinate
arrays (the state component is returned unchanged), and beyond the
output sequence its only side effect is console output: the stage-2
`except` branch prints `(x+1, y)` exactly for those candidates whose
`try`-block lookups do not all succeed, in scan order. -/
theorem findLocalMinima_frame_print (s : GridState) (bound : ℚ) (step : Nat) :
    (findLocalMinimaRun s bound step).1 = s ∧
      (findLocalMinimaRun s bound step).2.2 =
        findLocalMinima s.U s.lat s.lon bound step ∧
      (findLocalMinimaRun s bound step).2.1 = consoleOf s.U s.lat s.lon bound ∧
      ∀ x y : Nat,
        (stage2print s.U (latdataOf s.lat s.lon) (x, y) = none ↔
          ∃ u1 u0 l1 l0, mEntry s.U (x + 1) y = some u1 ∧ mEntry s.U x y = some u0 ∧
            mEntry (latdataOf s.lat s.lon) (x + 1) y = some l1 ∧
            mEntry (latdataOf s.lat s.lon) x y = some l0) ∧
        (stage2print s.U (latdataOf s.lat s.lon) (x, y) ≠ none →
          stage2print s.U (latdataOf s.lat s.lon) (x, y) = some (x + 1, y)) :=
  ⟨rfl, rfl, rfl, fun x y => stage2print_char s.U (latdataOf s.lat s.lon) x y⟩
